import Mathlib

/-!
Verification of the doppel composable template cache.

The definitions below are a shallow embedding of the Go sources
(`doppel.go`, `cache_operations.go`, `schematic.go`, `errors.go`,
`option.go`).  Opaque collaborators — the external template parser,
template artifacts, clocks — are abstracted: artifacts become opaque
tokens and the external parser an oracle (`ParseEnv`).  Go error values
are modelled by the inductive `GoErr`; the source compares sentinel
errors (`context.Canceled`, `context.DeadlineExceeded`) by interface
identity, which the dedicated constructors below reproduce, and every
comparison proved here rests on distinct constructors or distinct
messages, where structural and identity equality agree.  A Go function
that can panic is modelled with an `Option` result, `none` standing for
the panic.
-/

namespace Doppel

/-- An opaque compiled template artifact (`*template.Template`). -/
structure Tmpl where
  id : Nat
deriving DecidableEq

/-- Go error values, as far as the cache inspects or constructs them.
`canceled` and `deadlineExceeded` are the `context` package sentinels;
`errorsNew` is `errors.New msg`; `withStack` and `wrap` are the
`github.com/pkg/errors` decorators; `requestError` is the package's
`RequestError{error, Target, RequestDuration}` envelope (durations in
abstract ticks). -/
inductive GoErr where
  | canceled : GoErr
  | deadlineExceeded : GoErr
  | errorsNew : String → GoErr
  | withStack : GoErr → GoErr
  | wrap : GoErr → String → GoErr
  | requestError : GoErr → String → Nat → GoErr
deriving DecidableEq

/-- `ErrDoppelShutdown` from errors.go. -/
def errDoppelShutdown : GoErr := .errorsNew "can't send request to stopped cache"

/-- `ErrSchematicNotFound` from errors.go. -/
def errSchematicNotFound : GoErr := .errorsNew "requested *TemplateSchematic not found"

/-- `TemplateSchematic` from schematic.go: a parent template name
(empty string iff no parent) and the template's file paths. -/
structure TemplateSchematic where
  baseTmplName : String
  filepaths : List String
deriving DecidableEq

/-- `CacheSchematic` is Go's `map[string]*TemplateSchematic`.  It is
modelled as an association list whose values are `Option` pointers:
`none` is a key mapped to a nil `*TemplateSchematic`. -/
abbrev CacheSchematic := List (String × Option TemplateSchematic)

/-- Go's `cs[name]` map read: nil both for an absent key and for a key
stored with a nil pointer. -/
def lookupTS (cs : CacheSchematic) (name : String) : Option TemplateSchematic :=
  match cs.lookup name with
  | some (some ts) => some ts
  | _ => none

/-- The key set of the schematic, in insertion order (Go's map
iteration order is unspecified; theorems that depend on it quantify
over an arbitrary enumeration). -/
def keysOf (cs : CacheSchematic) : List String :=
  cs.map Prod.fst

/-- `TemplateSchematic.Clone`: a fresh struct holding the same base
name and a freshly allocated copy of the file path slice.  At the value
level the copy equals the original; the freshness of the allocation is
modelled separately by the heap embedding below. -/
def TemplateSchematic.Clone (ts : TemplateSchematic) : TemplateSchematic :=
  { baseTmplName := ts.baseTmplName, filepaths := ts.filepaths }

/-- `CacheSchematic.Clone`: clones every value.  `v.Clone()` on a nil
`*TemplateSchematic` dereferences nil, so a schematic holding a nil
pointer makes Clone panic — modelled as `none`. -/
def CacheSchematic.Clone : CacheSchematic → Option CacheSchematic
  | [] => some []
  | (_, none) :: _ => none
  | (k, some ts) :: rest =>
    (CacheSchematic.Clone rest).map (fun r => (k, some ts.Clone) :: r)

/-! ## IsCyclic (doppel.go)

`visit` is the DFS of `IsCyclic` with its recursion stack (`recStack`)
and persistent `seen` set.  The Go recursion terminates because a node
is explored only when unseen and present in the map; the embedding
makes that explicit with a fuel argument, always called with fuel
strictly larger than the number of unseen keys, which the lemmas below
show is never exhausted. -/

/-- Number of keys of `cs` not yet marked seen: the DFS can recurse at
most this many times. -/
def unseenKeys (cs : CacheSchematic) (seen : List String) : Nat :=
  ((keysOf cs).filter (fun k => k ∉ seen)).length

/-- The `visit` closure of `IsCyclic`: returns whether a cycle was
reported together with the updated `seen` set.  The membership test
against the recursion stack precedes the `seen` test, exactly as in the
source. -/
def visit (cs : CacheSchematic) : Nat → List String → List String → String → Bool × List String
  | 0, seen, _, _ => (false, seen)
  | fuel + 1, seen, stack, name =>
    if name ∈ stack then (true, seen)
    else if name ∈ seen then (false, seen)
    else
      match lookupTS cs name with
      | none => (false, name :: seen)
      | some d => visit cs fuel (name :: seen) (name :: stack) d.baseTmplName

/-- The outer loop of `IsCyclic`: visit every name of `order` in turn,
threading `seen`, returning true at the first reported cycle. -/
def isCyclicAux (cs : CacheSchematic) : List String → List String → Bool
  | [], _ => false
  | n :: rest, seen =>
    let r := visit cs (unseenKeys cs seen + 1) seen [] n
    if r.1 then true else isCyclicAux cs rest r.2

/-- `IsCyclic` from doppel.go, with the map iterated in insertion
order. -/
def IsCyclic (cs : CacheSchematic) : Bool :=
  isCyclicAux cs (keysOf cs) []

/-! ## New (doppel.go) -/

/-- The cache state `New` builds on success: the deep-copied schematic
and the started work loop. -/
structure DoppelModel where
  schematic : CacheSchematic
  started : Bool
deriving DecidableEq

/-- The three ways `New` can end: an error return (nil `*Doppel`, no
work loop), a panic inside `schematic.Clone()`, or a started cache. -/
inductive NewOutcome where
  | failure : GoErr → NewOutcome
  | panics : NewOutcome
  | success : DoppelModel → NewOutcome
deriving DecidableEq

/-- The descriptive error `IsCyclic` pairs with `true` (the source
formats the participating names into the message; the claims only
depend on its identity as the cyclic-graph error). -/
def cyclicErr : GoErr := .errorsNew "cycle through schematic"

/-- `New` from doppel.go: reject cyclic schematics with the wrapped
cycle error before building anything, then deep-copy the schematic and
start the work loop.  The functional options and the default logger
only decorate the built cache and cannot change which outcome is
reached, so they are elided. -/
def NewModel (cs : CacheSchematic) : NewOutcome :=
  if IsCyclic cs then .failure (.withStack cyclicErr)
  else
    match cs.Clone with
    | none => .panics
    | some c => .success { schematic := c, started := true }

/-! ## Cache entries, parse and deliver (cache_operations.go) -/

/-- `cacheEntry`: the descriptor snapshot taken at allocation, the
parsed artifact and the terminal error.  The ready/retry channels are
represented by the `SignalOutcome` a parser produces. -/
structure CacheEntry where
  schematic : Option TemplateSchematic
  tmpl : Option Tmpl
  err : Option GoErr
deriving DecidableEq

/-- Which signal `signalStatus` fires: a non-blocking send on `retry`
(ready stays unfired), or closing `ready`. -/
inductive SignalOutcome where
  | retryEmitted : SignalOutcome
  | readyFired : SignalOutcome
deriving DecidableEq

/-- `cacheEntry.signalStatus`: retry iff the recorded error is
identically `context.Canceled`, or identically `context.DeadlineExceeded`
when retryTimeouts is set; every other outcome closes `ready`. -/
def signalStatus (retryTimeouts : Bool) (err : Option GoErr) : SignalOutcome :=
  if err = some GoErr.canceled ∨ retryTimeouts = true ∧ err = some GoErr.deadlineExceeded then
    .retryEmitted
  else
    .readyFired

/-- Oracles for the external collaborators of `Doppel.parse`:
`template.ParseFiles`, the recursive `d.Get` on the parent name, and
`base.ParseFiles` (parsing file paths onto a base artifact). -/
structure ParseEnv where
  parseFiles : List String → Except GoErr Tmpl
  recGet : String → Except GoErr Tmpl
  parseOnto : Tmpl → List String → Except GoErr Tmpl

/-- Go's `%q` applied to a template name (names used here contain no
characters needing escapes beyond the quotes). -/
def goQuote (s : String) : String := "\"" ++ s ++ "\""

/-- The `logMissingSchematic` message formatted with the request name,
which `parse` turns into the entry's terminal error via `errors.New`. -/
def missingSchematicMsg (name : String) : String :=
  "missing schematic for template " ++ goQuote name

/-- The body of `Doppel.parse` up to the deferred `signalStatus`: the
entry after the run.  `ctxDone`/`ctxErr` describe the originating
request's context at the initial preemption check.  In the composite
branch the source assigns the result of `base.ParseFiles` to a
shadowed `err` (declared by `base, err := d.Get(...)`), so the
function-level `err` consulted after the branch remains nil and the
nil template is stored. -/
def parseBody (env : ParseEnv) (name : String) (ctxDone : Bool) (ctxErr : GoErr)
    (ce : CacheEntry) : CacheEntry :=
  if ctxDone then { ce with err := some ctxErr }
  else
    let ce := { ce with err := none }
    match ce.schematic with
    | none => { ce with err := some (.errorsNew (missingSchematicMsg name)) }
    | some s =>
      if s.baseTmplName = "" then
        match env.parseFiles s.filepaths with
        | .error e => { ce with err := some e }
        | .ok t => { ce with tmpl := some t }
      else
        match env.recGet s.baseTmplName with
        | .error e => { ce with err := some e }
        | .ok base =>
          match env.parseOnto base s.filepaths with
          | .error _ => { ce with tmpl := none }
          | .ok t => { ce with tmpl := some t }

/-- `Doppel.parse`: run the body, then fire exactly one signal from the
deferred `signalStatus`. -/
def parse (retryTimeouts : Bool) (env : ParseEnv) (name : String) (ctxDone : Bool)
    (ctxErr : GoErr) (ce : CacheEntry) : CacheEntry × SignalOutcome :=
  let ce2 := parseBody env name ctxDone ctxErr ce
  (ce2, signalStatus retryTimeouts ce2.err)

/-- A value sent on a request's result channel. -/
structure DResult where
  tmpl : Option Tmpl
  err : Option GoErr
deriving DecidableEq

/-- The tail of `Doppel.deliver` once `ready` has fired: what is sent
on the requester's result channel, `none` when the Go code panics by
calling `Clone` on a nil cached template.  On a clone failure the
source sends `&result{err: ce.err}` — the entry's error, which is nil
in that branch — not the clone error. -/
def deliverReady (cloneFn : Tmpl → Except GoErr Tmpl) (ce : CacheEntry) : Option DResult :=
  match ce.err with
  | some e => some { tmpl := none, err := some e }
  | none =>
    match ce.tmpl with
    | none => none
    | some t =>
      match cloneFn t with
      | .error _ => some { tmpl := none, err := none }
      | .ok c => some { tmpl := some c, err := none }

/-- One iteration of the work loop in `startCache` for a received
request: drop it if its context is already done; otherwise find or
allocate the entry (snapshotting the descriptor by cloning it) and
report whether a parser was spawned.  Returns the updated entry map,
the entry handed to the spawned deliverer (`none` when the request was
dropped), and the parser-spawned flag. -/
def loopStep (sch : CacheSchematic) (cache : List (String × CacheEntry)) (name : String)
    (ctxDone : Bool) : List (String × CacheEntry) × Option CacheEntry × Bool :=
  if ctxDone then (cache, none, false)
  else
    match cache.lookup name with
    | some entry => (cache, some entry, false)
    | none =>
      let snap := (lookupTS sch name).map TemplateSchematic.Clone
      let e : CacheEntry := { schematic := snap, tmpl := none, err := none }
      ((name, e) :: cache, some e, true)

/-! ## Get (doppel.go) -/

/-- Which branch of `Get`'s two selects (and the initial shutdown
check) fires first for a given call. -/
inductive GetEvent where
  | shutdownFired : GetEvent
  | ctxFiresAtSubmit : GetEvent
  | ctxFiresAtAwait : GetEvent
  | resultDelivered : DResult → GetEvent

/-- `Doppel.Get`: the value and error returned to the caller.
`elapsedSubmit`/`elapsedResult` are `time.Since(req.start)` at the
submit select and at result receipt.  A fired context during submission
returns a `RequestError` carrying the name and elapsed time; a fired
context while awaiting the result returns `ctx.Err()` undecorated; an
error in a delivered result is wrapped and decorated. -/
def getOutcome (name : String) (elapsedSubmit elapsedResult : Nat) (ctxErr : GoErr)
    (ev : GetEvent) : Except GoErr (Option Tmpl) :=
  match ev with
  | .shutdownFired => .error errDoppelShutdown
  | .ctxFiresAtSubmit => .error (.requestError (.withStack ctxErr) name elapsedSubmit)
  | .ctxFiresAtAwait => .error ctxErr
  | .resultDelivered r =>
    match r.err with
    | some e => .error (.requestError (.wrap e "received error from cache") name elapsedResult)
    | none => .ok r.tmpl

/-! ## Lifecycle: Shutdown and Close (doppel.go)

`Shutdown` and `Close` share one `sync.Once`, so whichever runs first
executes its body and every later call of either is a no-op.  Closing a
Go channel twice panics; `closeChanCounted` models a `close` call,
failing (`none`) on a closed channel and counting every successful
closure so at-most-once claims are visible in the final state. -/

/-- Lifecycle-relevant state of a `Doppel`: the `sync.Once` flag, the
two channels' closed flags, whether a graceful-shutdown timer is armed
to close the request stream, and closure counters. -/
structure LifeState where
  onceUsed : Bool
  inShutdownClosed : Bool
  requestStreamClosed : Bool
  gracePending : Bool
  sigCloses : Nat
  inputCloses : Nat
deriving DecidableEq

/-- A freshly constructed cache, both channels open. -/
def initLife : LifeState :=
  { onceUsed := false, inShutdownClosed := false, requestStreamClosed := false,
    gracePending := false, sigCloses := 0, inputCloses := 0 }

/-- `close(ch)`: panics (`none`) on an already-closed channel. -/
def closeChanCounted (closed : Bool) (count : Nat) : Option (Bool × Nat) :=
  if closed then none else some (true, count + 1)

/-- A caller-visible lifecycle call. -/
inductive LifeOp where
  | shutdown : LifeOp
  | closeCall : LifeOp
deriving DecidableEq

/-- One `Shutdown` or `Close` invocation.  Both run their bodies under
the shared `once`, so a used `once` makes either a no-op.  `Shutdown`
closes the shutdown signal and arms the grace timer that will close the
request stream; `Close` closes both immediately. -/
def lifeStep (s : LifeState) : LifeOp → Option LifeState
  | .shutdown =>
    if s.onceUsed then some s
    else
      match closeChanCounted s.inShutdownClosed s.sigCloses with
      | none => none
      | some (c, n) =>
        some { s with onceUsed := true, inShutdownClosed := c, sigCloses := n,
                      gracePending := true }
  | .closeCall =>
    if s.onceUsed then some s
    else
      match closeChanCounted s.inShutdownClosed s.sigCloses with
      | none => none
      | some (c, n) =>
        match closeChanCounted s.requestStreamClosed s.inputCloses with
        | none => none
        | some (c2, n2) =>
          some { s with onceUsed := true, inShutdownClosed := c, sigCloses := n,
                        requestStreamClosed := c2, inputCloses := n2 }

/-- The goroutine armed by `Shutdown` firing after the grace period:
closes the request stream exactly once. -/
def fireGraceTimer (s : LifeState) : Option LifeState :=
  if s.gracePending then
    match closeChanCounted s.requestStreamClosed s.inputCloses with
    | none => none
    | some (c2, n2) =>
      some { s with gracePending := false, requestStreamClosed := c2, inputCloses := n2 }
  else some s

/-- Run a sequence of lifecycle calls from a state. -/
def runOps (s : LifeState) : List LifeOp → Option LifeState
  | [] => some s
  | op :: rest => (lifeStep s op).bind (fun s2 => runOps s2 rest)

/-- Run a call sequence from the initial state, then let any armed
grace timer fire: the quiescent end state of the cache. -/
def runLifecycle (ops : List LifeOp) : Option LifeState :=
  (runOps initLife ops).bind fireGraceTimer

/-- The terminal state every non-empty call sequence reaches: both
channels closed, each closed exactly once. -/
def terminalLife : LifeState :=
  { onceUsed := true, inShutdownClosed := true, requestStreamClosed := true,
    gracePending := false, sigCloses := 1, inputCloses := 1 }

/-! ## Heap-instrumented clone (schematic.go)

The value-level `Clone` above cannot express freshness of the copied
allocations, so the round-trip claim is settled against this second
embedding of the same source functions, instrumented with an explicit
heap: `*TemplateSchematic` values become indices into `tsHeap` and
slice headers become indices into `slHeap`.  Mutating through a pointer
is an update of the heap cell it denotes. -/

/-- A `TemplateSchematic` struct as stored on the heap: the base name
and the index of its file path slice. -/
structure HTS where
  baseTmplName : String
  fpRef : Nat
deriving DecidableEq

/-- The two heaps the schematic structures live in. -/
structure HState where
  tsHeap : List HTS
  slHeap : List (List String)
deriving DecidableEq

/-- A `CacheSchematic` whose values are pointers (`none` = nil). -/
abbrev HCS := List (String × Option Nat)

/-- Dereference a `*TemplateSchematic`. -/
def getTS (st : HState) (p : Nat) : HTS :=
  st.tsHeap.getD p { baseTmplName := "", fpRef := 0 }

/-- Dereference a slice header. -/
def getSl (st : HState) (i : Nat) : List String :=
  st.slHeap.getD i []

/-- `TemplateSchematic.Clone` on the heap: allocate a fresh slice with
the same contents (`make` + `copy`) and a fresh struct pointing at it;
return the new pointer. -/
def hCloneTS (st : HState) (p : Nat) : HState × Nat :=
  let ts := getTS st p
  let fp := getSl st ts.fpRef
  ({ tsHeap := st.tsHeap ++ [{ baseTmplName := ts.baseTmplName, fpRef := st.slHeap.length }],
     slHeap := st.slHeap ++ [fp] },
   st.tsHeap.length)

/-- `CacheSchematic.Clone` on the heap: a new map whose entries point
at freshly cloned structs; panics (`none`) on a nil entry. -/
def hCloneCS (st : HState) : HCS → Option (HState × HCS)
  | [] => some (st, [])
  | (_, none) :: _ => none
  | (k, some p) :: rest =>
    let r := hCloneTS st p
    match hCloneCS r.1 rest with
    | none => none
    | some (st2, cs2) => some (st2, (k, some r.2) :: cs2)

/-- The descriptor value a pointer denotes. -/
def readTS (st : HState) (p : Nat) : TemplateSchematic :=
  { baseTmplName := (getTS st p).baseTmplName, filepaths := getSl st (getTS st p).fpRef }

/-- The full value a heap schematic denotes: the observable behavior of
the cache is a function of this value. -/
def readCS (st : HState) (cs : HCS) : List (String × Option TemplateSchematic) :=
  cs.map (fun e => (e.1, e.2.map (readTS st)))

/-- Pointer validity: the struct and its slice exist on the heaps. -/
def ValidPtr (st : HState) (p : Nat) : Prop :=
  p < st.tsHeap.length ∧ (getTS st p).fpRef < st.slHeap.length

/-- All non-nil entries of the schematic are valid pointers. -/
def ValidCS (st : HState) (cs : HCS) : Prop :=
  ∀ p, (∃ k, (k, some p) ∈ cs) → ValidPtr st p

/-- A single mutation through a pointer: overwrite a struct or a
slice.  Out-of-range indices leave the heap unchanged. -/
inductive HMut where
  | setTS : Nat → HTS → HMut
  | setSl : Nat → List String → HMut

/-- Apply a mutation to the heap. -/
def applyMut (st : HState) : HMut → HState
  | .setTS p v => { st with tsHeap := st.tsHeap.set p v }
  | .setSl i v => { st with slHeap := st.slHeap.set i v }

/-- The struct pointers owned by a heap schematic. -/
def tsRefs (cs : HCS) : List Nat :=
  cs.filterMap Prod.snd

/-- The slice pointers owned by a heap schematic. -/
def slRefs (st : HState) (cs : HCS) : List Nat :=
  (tsRefs cs).map (fun p => (getTS st p).fpRef)

/-- `m` mutates only memory owned by `cs` (writing "through the
clone" or "through the caller's descriptors"). -/
def MutTargets (st : HState) (cs : HCS) : HMut → Prop
  | .setTS p _ => p ∈ tsRefs cs
  | .setSl i _ => i ∈ slRefs st cs

/-- `New` on the heap: reject cyclic schematics (reading the value the
caller's structure currently denotes), otherwise store the deep copy.
`failure` is the nil-`*Doppel` error return, `panics` the nil-entry
panic, `success` carries the extended heap and the stored schematic. -/
inductive HNewOut where
  | failure : HNewOut
  | panics : HNewOut
  | success : HState → HCS → HNewOut
deriving DecidableEq

/-- `New` from doppel.go over the heap embedding. -/
def hNew (st : HState) (cs : HCS) : HNewOut :=
  if IsCyclic (readCS st cs) then .failure
  else
    match hCloneCS st cs with
    | none => .panics
    | some (st2, stored) => .success st2 stored

/-- `st2` is `st` with fresh allocations appended. -/
def HExtends (st st2 : HState) : Prop :=
  ∃ extT extS, st2.tsHeap = st.tsHeap ++ extT ∧ st2.slHeap = st.slHeap ++ extS

/-! ## Concrete instances used by the claim evaluations -/

/-- A clone oracle that succeeds, returning the artifact itself. -/
def cloneOk : Tmpl → Except GoErr Tmpl := fun t => .ok t

/-- The error of a failing `(*template.Template).Clone` call. -/
def cloneFailErr : GoErr := .errorsNew "html/template: cannot Clone after execution"

/-- A clone oracle that fails. -/
def cloneFail : Tmpl → Except GoErr Tmpl := fun _ => .error cloneFailErr

/-- A parse error from `base.ParseFiles` on the child's file paths. -/
def parseErrChild : GoErr := .errorsNew "template: syntax error in child.gohtml"

/-- Oracle for a parse whose recursive parent Get succeeds and whose
parse-onto-parent fails. -/
def envParentOkParseFail : ParseEnv :=
  { parseFiles := fun _ => .error (.errorsNew "unused"),
    recGet := fun _ => .ok { id := 1 },
    parseOnto := fun _ _ => .error parseErrChild }

/-- A freshly allocated entry for a template with parent `base`. -/
def entryChild : CacheEntry :=
  { schematic := some { baseTmplName := "base", filepaths := ["child.gohtml"] },
    tmpl := none, err := none }

/-- The error `Get` returns when the caller's handle fires while the
request is being submitted (its submit-select branch). -/
def submitCancelErr : GoErr := .requestError (.withStack .canceled) "base" 3

/-- Oracle whose recursive Get surfaces a cancellation through the
submit-path `RequestError` decoration. -/
def envSubmitCancel : ParseEnv :=
  { parseFiles := fun _ => .error (.errorsNew "unused"),
    recGet := fun _ => .error submitCancelErr,
    parseOnto := fun _ _ => .error (.errorsNew "unused") }

/-- Oracle whose recursive Get surfaces a cancellation as the bare
`context.Canceled` (its await-select branch). -/
def envAwaitCancel : ParseEnv :=
  { parseFiles := fun _ => .error (.errorsNew "unused"),
    recGet := fun _ => .error .canceled,
    parseOnto := fun _ _ => .error (.errorsNew "unused") }

/-- A ready entry holding a successfully parsed artifact. -/
def entryParsed : CacheEntry :=
  { schematic := some { baseTmplName := "", filepaths := ["page.gohtml"] },
    tmpl := some { id := 7 }, err := none }

/-- Whether an error is a `RequestError` decorated with the given
template name. -/
def isDecoratedWith (e : GoErr) (name : String) : Bool :=
  match e with
  | .requestError _ tgt _ => tgt == name
  | _ => false

/-- A schematic without the name `missing`. -/
def schBaseOnly : CacheSchematic :=
  [("base", some { baseTmplName := "", filepaths := ["base.gohtml"] })]

/-- An oracle none of whose collaborators is consulted. -/
def envUnused : ParseEnv :=
  { parseFiles := fun _ => .error (.errorsNew "unused"),
    recGet := fun _ => .error (.errorsNew "unused"),
    parseOnto := fun _ _ => .error (.errorsNew "unused") }

/-- The entry the work loop allocates for an unknown name: a nil
descriptor snapshot. -/
def entryMissing : CacheEntry := { schematic := none, tmpl := none, err := none }

/-- That entry after its parse run. -/
def entryMissingDone : CacheEntry :=
  (parse false envUnused "missing" false GoErr.canceled entryMissing).1

/-- A schematic whose only descriptor is keyed by the empty string and
declares no parent. -/
def csEmptyKey : CacheSchematic :=
  [("", some { baseTmplName := "", filepaths := [] })]

/-- A two-node cycle. -/
def csTwoCycle : CacheSchematic :=
  [("A", some { baseTmplName := "B", filepaths := [] }),
   ("B", some { baseTmplName := "A", filepaths := [] })]

/-- A one-entry heap state for the round-trip witness. -/
def stHeapW : HState :=
  { tsHeap := [{ baseTmplName := "", fpRef := 0 }], slHeap := [["base.gohtml"]] }

/-- The heap schematic living in `stHeapW`. -/
def csHeapW : HCS := [("base", some 0)]

/-- A schematic that maps a key to a nil `*TemplateSchematic`. -/
def csNilEntry : CacheSchematic := [("a", none)]

/-- The state right after a first `Shutdown` call: shutdown signal
closed, grace timer armed, request stream still open. -/
def afterShutdown : LifeState :=
  { onceUsed := true, inShutdownClosed := true, requestStreamClosed := false,
    gracePending := true, sigCloses := 1, inputCloses := 0 }

/-- The heap after cloning `csHeapW` in `stHeapW`. -/
def stHeapW2 : HState :=
  { tsHeap := [{ baseTmplName := "", fpRef := 0 }, { baseTmplName := "", fpRef := 1 }],
    slHeap := [["base.gohtml"], ["base.gohtml"]] }

/-- The clone of `csHeapW`: same key, fresh pointer. -/
def csHeapW2 : HCS := [("base", some 1)]

/-! ## The parent relation and cycles

The DFS of `IsCyclic` follows exactly one edge out of each node — the
`BaseTmplName` of the node's descriptor when the node has a non-nil
descriptor — so the traversed graph is the iteration of a partial
function, `goParent`.  The specification's notion is `specParent`: a
descriptor whose parent name is the empty string contributes no edge.
The two differ precisely on edges into a descriptor keyed by the empty
string. -/

/-- The edge the DFS follows out of `name`: the parent name of its
descriptor, whatever that name is. -/
def goParent (cs : CacheSchematic) (name : String) : Option String :=
  (lookupTS cs name).map TemplateSchematic.baseTmplName

/-- Iterate `goParent` `k` times. -/
def pIter (cs : CacheSchematic) : Nat → String → Option String
  | 0, n => some n
  | k + 1, n => (goParent cs n).bind (pIter cs k)

/-- `n` lies on a `goParent` cycle. -/
def OnCycle (cs : CacheSchematic) (n : String) : Prop :=
  ∃ k, 0 < k ∧ pIter cs k n = some n

/-- `m` is reachable from `n` along `goParent` edges. -/
def Reaches (cs : CacheSchematic) (n m : String) : Prop :=
  ∃ k, pIter cs k n = some m

/-- The chain from `n` eventually enters a cycle. -/
def Dirty (cs : CacheSchematic) (n : String) : Prop :=
  ∃ m, Reaches cs n m ∧ OnCycle cs m

/-- The specification's parent edge: none when the parent name is the
empty string. -/
def specParent (cs : CacheSchematic) (n : String) : Option String :=
  match lookupTS cs n with
  | none => none
  | some d => if d.baseTmplName = "" then none else some d.baseTmplName

/-- Iterate `specParent` `k` times. -/
def specIter (cs : CacheSchematic) : Nat → String → Option String
  | 0, n => some n
  | k + 1, n => (specParent cs n).bind (specIter cs k)

/-- The parent relation restricted to resolvable edges contains a
cycle: some name returns to itself along `specParent` edges. -/
def HasSpecCycle (cs : CacheSchematic) : Prop :=
  ∃ n k, 0 < k ∧ specIter cs k n = some n

/-- The recursion stack of `visit` is a `goParent` chain ending at the
name currently being visited: the head was pushed by the call that
recursed into `name`. -/
def ChainedStack (cs : CacheSchematic) : List String → String → Prop
  | [], _ => True
  | s :: rest, n => goParent cs s = some n ∧ ChainedStack cs rest s

theorem pIter_add (cs : CacheSchematic) (a b : Nat) (n : String) :
    pIter cs (a + b) n = (pIter cs a n).bind (pIter cs b) := by
  induction a generalizing n with
  | zero => simp [pIter]
  | succ a ih =>
    have : a + 1 + b = (a + b) + 1 := by omega
    rw [this]
    simp only [pIter]
    cases goParent cs n with
    | none => simp
    | some p => simp [ih]

theorem reaches_trans (cs : CacheSchematic) (n m x : String) :
    Reaches cs n m → Reaches cs m x → Reaches cs n x := by
  rintro ⟨a, ha⟩ ⟨b, hb⟩
  exact ⟨a + b, by rw [pIter_add, ha]; exact hb⟩

theorem reaches_step (cs : CacheSchematic) (n p x : String) :
    goParent cs n = some p → Reaches cs p x → Reaches cs n x := by
  rintro h ⟨k, hk⟩
  exact ⟨k + 1, by have : k + 1 = 1 + k := by omega
                   rw [this, pIter_add]; simp [pIter, h]; exact hk⟩

theorem reaches_dirty (cs : CacheSchematic) (n m : String) :
    Reaches cs n m → Dirty cs m → Dirty cs n := by
  rintro h ⟨c, hr, hc⟩
  exact ⟨c, reaches_trans cs n m c h hr, hc⟩

theorem dirty_has_parent (cs : CacheSchematic) (n : String) :
    Dirty cs n → ∃ p, goParent cs n = some p := by
  rintro ⟨m, ⟨k, hk⟩, j, hj, hcyc⟩
  cases k with
  | zero =>
    simp [pIter] at hk
    subst hk
    cases j with
    | zero => omega
    | succ j =>
      simp only [pIter] at hcyc
      cases hg : goParent cs n with
      | none => rw [hg] at hcyc; simp at hcyc
      | some p => exact ⟨p, rfl⟩
  | succ k =>
    simp only [pIter] at hk
    cases hg : goParent cs n with
    | none => rw [hg] at hk; simp at hk
    | some p => exact ⟨p, rfl⟩

theorem dirty_step (cs : CacheSchematic) (n p : String) :
    Dirty cs n → goParent cs n = some p → Dirty cs p := by
  rintro ⟨m, ⟨k, hk⟩, hcyc⟩ hg
  cases k with
  | zero =>
    simp [pIter] at hk
    subst hk
    obtain ⟨j, hj, hiter⟩ := hcyc
    cases j with
    | zero => omega
    | succ j =>
      simp only [pIter, hg] at hiter
      exact ⟨n, ⟨j, hiter⟩, ⟨j + 1, hj, by simp only [pIter, hg]; exact hiter⟩⟩
  | succ k =>
    simp only [pIter, hg] at hk
    exact ⟨m, ⟨k, hk⟩, hcyc⟩

theorem lookup_mem_keys (cs : CacheSchematic) (n : String) (v : Option TemplateSchematic) :
    cs.lookup n = some v → n ∈ keysOf cs := by
  induction cs with
  | nil => intro h; simp [List.lookup] at h
  | cons e rest ih =>
    obtain ⟨k, v2⟩ := e
    intro h
    simp only [List.lookup] at h
    by_cases he : n = k
    · subst he; simp [keysOf]
    · have hb : (n == k) = false := by simp [he]
      rw [hb] at h
      simp only [keysOf, List.map_cons, List.mem_cons]
      exact Or.inr (ih h)

theorem lookupTS_mem_keys (cs : CacheSchematic) (n : String) (d : TemplateSchematic) :
    lookupTS cs n = some d → n ∈ keysOf cs := by
  intro h
  unfold lookupTS at h
  split at h
  · next v hl => exact lookup_mem_keys cs n _ hl
  · exact absurd h (by simp)

theorem filter_length_mono (p q : String → Bool) (himp : ∀ a, p a = true → q a = true) :
    ∀ l : List String, (l.filter p).length ≤ (l.filter q).length := by
  intro l
  induction l with
  | nil => simp
  | cons a rest ih =>
    simp only [List.filter_cons]
    cases hpa : p a with
    | true =>
      rw [himp a hpa]
      simpa using Nat.succ_le_succ ih
    | false =>
      cases hqa : q a with
      | true => simpa using Nat.le_succ_of_le ih
      | false => simpa using ih

theorem filter_length_strict (p q : String → Bool) (himp : ∀ a, p a = true → q a = true) :
    ∀ l : List String, ∀ n ∈ l, p n = false → q n = true →
      (l.filter p).length < (l.filter q).length := by
  intro l
  induction l with
  | nil => intro n hn; simp at hn
  | cons a rest ih =>
    intro n hn hpn hqn
    simp only [List.filter_cons]
    rcases List.mem_cons.mp hn with rfl | hrest
    · rw [hpn, hqn]
      simpa using Nat.lt_succ_of_le (filter_length_mono p q himp rest)
    · cases hpa : p a with
      | true =>
        rw [himp a hpa]
        simpa using Nat.succ_lt_succ (ih n hrest hpn hqn)
      | false =>
        cases hqa : q a with
        | true => simpa using Nat.lt_succ_of_le (Nat.le_of_lt (ih n hrest hpn hqn))
        | false => simpa using ih n hrest hpn hqn

theorem unseen_decrease (cs : CacheSchematic) (seen : List String) (n : String)
    (hmem : n ∈ keysOf cs) (hn : n ∉ seen) :
    unseenKeys cs (n :: seen) < unseenKeys cs seen := by
  unfold unseenKeys
  refine filter_length_strict _ _ ?_ (keysOf cs) n hmem ?_ ?_
  · intro a ha
    simp only [decide_eq_true_eq] at ha ⊢
    exact fun h => ha (List.mem_cons_of_mem n h)
  · simp
  · simpa using hn

theorem chained_reaches (cs : CacheSchematic) :
    ∀ stack name, ChainedStack cs stack name →
      ∀ s ∈ stack, ∃ k, 0 < k ∧ pIter cs k s = some name := by
  intro stack
  induction stack with
  | nil => intro name _ s hs; simp at hs
  | cons s0 rest ih =>
    intro name hch s hs
    obtain ⟨hg, hrest⟩ := hch
    rcases List.mem_cons.mp hs with rfl | hs2
    · exact ⟨1, by omega, by simp [pIter, hg]⟩
    · obtain ⟨k, hk, hit⟩ := ih s0 hrest s hs2
      refine ⟨k + 1, by omega, ?_⟩
      rw [pIter_add cs k 1, hit]
      simp [pIter, hg]

/-- Soundness of the DFS: a reported cycle is a real `goParent`
cycle. -/
theorem visit_sound (cs : CacheSchematic) :
    ∀ fuel seen stack name, ChainedStack cs stack name →
      (visit cs fuel seen stack name).1 = true → ∃ c, OnCycle cs c := by
  intro fuel
  induction fuel with
  | zero => intro seen stack name _ h; simp [visit] at h
  | succ fuel ih =>
    intro seen stack name hch h
    by_cases hstack : name ∈ stack
    · obtain ⟨k, hk, hit⟩ := chained_reaches cs stack name hch name hstack
      exact ⟨name, k, hk, hit⟩
    · by_cases hseen : name ∈ seen
      · simp [visit, hstack, hseen] at h
      · cases hl : lookupTS cs name with
        | none => simp [visit, hstack, hseen, hl] at h
        | some d =>
          have h2 : (visit cs fuel (name :: seen) (name :: stack) d.baseTmplName).1 = true := by
            simpa [visit, hstack, hseen, hl] using h
          exact ih (name :: seen) (name :: stack) d.baseTmplName
            ⟨by simp [goParent, hl], hch⟩ h2

/-- Detection: a visit of a node whose chain leads into a cycle
reports a cycle, provided every seen node whose chain does so is on
the current recursion stack. -/
theorem visit_dirty (cs : CacheSchematic) :
    ∀ fuel seen stack name, unseenKeys cs seen < fuel →
      (∀ s ∈ seen, Dirty cs s → s ∈ stack) → Dirty cs name →
      (visit cs fuel seen stack name).1 = true := by
  intro fuel
  induction fuel with
  | zero => intro seen stack name hfuel _ _; exact absurd hfuel (Nat.not_lt_zero _)
  | succ fuel ih =>
    intro seen stack name hfuel hinv hd
    by_cases hstack : name ∈ stack
    · simp [visit, hstack]
    · by_cases hseen : name ∈ seen
      · exact absurd (hinv name hseen hd) hstack
      · obtain ⟨p, hp⟩ := dirty_has_parent cs name hd
        obtain ⟨d, hlk, hdp⟩ : ∃ d, lookupTS cs name = some d ∧ d.baseTmplName = p := by
          unfold goParent at hp
          cases hlk : lookupTS cs name with
          | none => rw [hlk] at hp; simp at hp
          | some d => rw [hlk] at hp; simp at hp; exact ⟨d, rfl, hp⟩
        have hmem : name ∈ keysOf cs := lookupTS_mem_keys cs name d hlk
        have hfuel2 : unseenKeys cs (name :: seen) < fuel := by
          have := unseen_decrease cs seen name hmem hseen
          omega
        have hd2 : Dirty cs d.baseTmplName := by
          rw [hdp]; exact dirty_step cs name p hd hp
        have hinv2 : ∀ s ∈ name :: seen, Dirty cs s → s ∈ name :: stack := by
          intro s hs hds
          rcases List.mem_cons.mp hs with rfl | hs2
          · exact List.mem_cons_self _ _
          · exact List.mem_cons_of_mem _ (hinv s hs2 hds)
        have hrec := ih (name :: seen) (name :: stack) d.baseTmplName hfuel2 hinv2 hd2
        simpa [visit, hstack, hseen, hlk] using hrec

/-- Every name marked seen by a visit was seen before or is reachable
from the visited name. -/
theorem visit_seen_reach (cs : CacheSchematic) :
    ∀ fuel seen stack name x, x ∈ (visit cs fuel seen stack name).2 →
      x ∈ seen ∨ Reaches cs name x := by
  intro fuel
  induction fuel with
  | zero => intro seen stack name x h; exact Or.inl (by simpa [visit] using h)
  | succ fuel ih =>
    intro seen stack name x h
    by_cases hstack : name ∈ stack
    · exact Or.inl (by simpa [visit, hstack] using h)
    · by_cases hseen : name ∈ seen
      · exact Or.inl (by simpa [visit, hstack, hseen] using h)
      · cases hl : lookupTS cs name with
        | none =>
          have h2 : x ∈ name :: seen := by simpa [visit, hstack, hseen, hl] using h
          rcases List.mem_cons.mp h2 with rfl | h3
          · exact Or.inr ⟨0, rfl⟩
          · exact Or.inl h3
        | some d =>
          have h2 : x ∈ (visit cs fuel (name :: seen) (name :: stack) d.baseTmplName).2 := by
            simpa [visit, hstack, hseen, hl] using h
          rcases ih (name :: seen) (name :: stack) d.baseTmplName x h2 with h3 | h3
          · rcases List.mem_cons.mp h3 with rfl | h4
            · exact Or.inr ⟨0, rfl⟩
            · exact Or.inl h4
          · exact Or.inr (reaches_step cs name d.baseTmplName x (by simp [goParent, hl]) h3)

/-- Completeness of the outer loop: if some cycle node appears in the
enumeration and no already-seen node leads into a cycle, the loop
reports a cycle. -/
theorem aux_complete (cs : CacheSchematic) :
    ∀ order seen, (∀ s ∈ seen, ¬ Dirty cs s) →
      (∃ c, OnCycle cs c ∧ c ∈ order) → isCyclicAux cs order seen = true := by
  intro order
  induction order with
  | nil => rintro seen _ ⟨c, _, hc⟩; simp at hc
  | cons n rest ih =>
    rintro seen hinv ⟨c, hcyc, hc⟩
    simp only [isCyclicAux]
    by_cases h1 : (visit cs (unseenKeys cs seen + 1) seen [] n).1 = true
    · simp [h1]
    · have hcn : c ≠ n := by
        rintro rfl
        exact h1 (visit_dirty cs _ seen [] c (by omega)
          (fun s hs hd => absurd hd (hinv s hs)) ⟨c, ⟨0, rfl⟩, hcyc⟩)
      have hcrest : c ∈ rest := by
        rcases List.mem_cons.mp hc with rfl | h
        · exact absurd rfl hcn
        · exact h
      have hinv2 : ∀ s ∈ (visit cs (unseenKeys cs seen + 1) seen [] n).2, ¬ Dirty cs s := by
        intro s hs hd
        rcases visit_seen_reach cs _ seen [] n s hs with h | h
        · exact hinv s h hd
        · exact h1 (visit_dirty cs _ seen [] n (by omega)
            (fun s2 hs2 hd2 => absurd hd2 (hinv s2 hs2)) (reaches_dirty cs n s h hd))
      simp only [h1, if_false, Bool.if_false_left]
      exact ih _ hinv2 ⟨c, hcyc, hcrest⟩

/-- Soundness of the outer loop. -/
theorem aux_sound (cs : CacheSchematic) :
    ∀ order seen, isCyclicAux cs order seen = true → ∃ c, OnCycle cs c := by
  intro order
  induction order with
  | nil => intro seen h; simp [isCyclicAux] at h
  | cons n rest ih =>
    intro seen h
    simp only [isCyclicAux] at h
    by_cases h1 : (visit cs (unseenKeys cs seen + 1) seen [] n).1 = true
    · exact visit_sound cs _ seen [] n trivial h1
    · rw [if_neg h1] at h
      exact ih _ h

theorem pIter_pos_lookup (cs : CacheSchematic) (k : Nat) (n m : String) (hk : 0 < k)
    (h : pIter cs k n = some m) : ∃ d, lookupTS cs n = some d := by
  cases k with
  | zero => omega
  | succ k =>
    simp only [pIter] at h
    cases hg : goParent cs n with
    | none => rw [hg] at h; simp at h
    | some p =>
      unfold goParent at hg
      cases hl : lookupTS cs n with
      | none => rw [hl] at hg; simp at hg
      | some d => exact ⟨d, rfl⟩

/-- A `goParent` chain that ends at a name with a descriptor is a
`specParent` chain, provided no descriptor is keyed by the empty
string. -/
theorem code_to_spec (cs : CacheSchematic) (hempty : lookupTS cs "" = none) :
    ∀ k n m, pIter cs k n = some m → lookupTS cs m ≠ none → specIter cs k n = some m := by
  intro k
  induction k with
  | zero => intro n m h _; simpa [pIter, specIter] using h
  | succ k ih =>
    intro n m h hm
    simp only [pIter] at h
    cases hg : goParent cs n with
    | none => rw [hg] at h; simp at h
    | some p =>
      rw [hg] at h
      replace h : pIter cs k p = some m := h
      obtain ⟨d, hl, hdp⟩ : ∃ d, lookupTS cs n = some d ∧ d.baseTmplName = p := by
        unfold goParent at hg
        cases hl : lookupTS cs n with
        | none => rw [hl] at hg; simp at hg
        | some d => rw [hl] at hg; simp at hg; exact ⟨d, rfl, hg⟩
      have hp : lookupTS cs p ≠ none := by
        cases k with
        | zero =>
          simp only [pIter, Option.some_inj] at h
          subst h; exact hm
        | succ k2 =>
          obtain ⟨d2, hd2⟩ := pIter_pos_lookup cs (k2 + 1) p m (by omega) h
          simp [hd2]
      have hpne : p ≠ "" := by rintro rfl; exact hp hempty
      have hsp : specParent cs n = some p := by
        simp [specParent, hl, hdp, hpne]
      simp only [specIter, hsp, Option.bind_some]
      exact ih p m h hm

/-- Every `specParent` chain is a `goParent` chain. -/
theorem spec_to_code (cs : CacheSchematic) :
    ∀ k n m, specIter cs k n = some m → pIter cs k n = some m := by
  intro k
  induction k with
  | zero => intro n m h; simpa [pIter, specIter] using h
  | succ k ih =>
    intro n m h
    simp only [specIter] at h
    cases hs : specParent cs n with
    | none => rw [hs] at h; simp at h
    | some p =>
      rw [hs] at h
      replace h : specIter cs k p = some m := h
      have hg : goParent cs n = some p := by
        unfold specParent at hs
        cases hl : lookupTS cs n with
        | none => rw [hl] at hs; simp at hs
        | some d =>
          rw [hl] at hs
          by_cases hb : d.baseTmplName = ""
          · simp [hb] at hs
          · simp [hb] at hs
            simp [goParent, hl, hs]
      simp only [pIter, hg, Option.bind_some]
      exact ih p m h

/-- With no descriptor keyed by the empty string, the DFS relation and
the specification's resolvable-edge relation have the same cycles. -/
theorem cycle_bridge (cs : CacheSchematic) (hempty : lookupTS cs "" = none) :
    (∃ c, OnCycle cs c) ↔ HasSpecCycle cs := by
  constructor
  · rintro ⟨c, k, hk, hit⟩
    have hc : lookupTS cs c ≠ none := by
      obtain ⟨d, hd⟩ := pIter_pos_lookup cs k c c hk hit
      simp [hd]
    exact ⟨c, k, hk, code_to_spec cs hempty k c c hit hc⟩
  · rintro ⟨n, k, hk, hit⟩
    exact ⟨n, k, hk, spec_to_code cs k n n hit⟩

theorem oncycle_mem_keys (cs : CacheSchematic) (c : String) :
    OnCycle cs c → c ∈ keysOf cs := by
  rintro ⟨k, hk, hit⟩
  obtain ⟨d, hd⟩ := pIter_pos_lookup cs k c c hk hit
  exact lookupTS_mem_keys cs c d hd

/-! Heap lemmas for the clone round-trip. -/

theorem getD_append_lt {α : Type} (l ext : List α) (d : α) (i : Nat) (h : i < l.length) :
    (l ++ ext).getD i d = l.getD i d := by
  unfold List.getD
  rw [List.get?_append h]

theorem getD_append_at {α : Type} (l : List α) (x : α) (ext : List α) (d : α) :
    (l ++ x :: ext).getD l.length d = x := by
  induction l with
  | nil => simp
  | cons a rest ih => simpa using ih

theorem getD_set_ne {α : Type} (l : List α) (i j : Nat) (v d : α) (h : i ≠ j) :
    (l.set i v).getD j d = l.getD j d := by
  unfold List.getD
  rw [List.get?_set_ne v l h]

theorem hExtends_refl (st : HState) : HExtends st st :=
  ⟨[], [], by simp, by simp⟩

theorem hExtends_trans (st st2 st3 : HState) (h1 : HExtends st st2) (h2 : HExtends st2 st3) :
    HExtends st st3 := by
  obtain ⟨a1, b1, ha1, hb1⟩ := h1
  obtain ⟨a2, b2, ha2, hb2⟩ := h2
  exact ⟨a1 ++ a2, b1 ++ b2, by rw [ha2, ha1, List.append_assoc],
    by rw [hb2, hb1, List.append_assoc]⟩

theorem getTS_hExtends (st st2 : HState) (h : HExtends st st2) (p : Nat)
    (hp : p < st.tsHeap.length) : getTS st2 p = getTS st p := by
  obtain ⟨a, b, ha, hb⟩ := h
  unfold getTS
  rw [ha, getD_append_lt _ _ _ _ hp]

theorem getSl_hExtends (st st2 : HState) (h : HExtends st st2) (i : Nat)
    (hi : i < st.slHeap.length) : getSl st2 i = getSl st i := by
  obtain ⟨a, b, ha, hb⟩ := h
  unfold getSl
  rw [hb, getD_append_lt _ _ _ _ hi]

theorem tsLen_le_hExtends (st st2 : HState) (h : HExtends st st2) :
    st.tsHeap.length ≤ st2.tsHeap.length ∧ st.slHeap.length ≤ st2.slHeap.length := by
  obtain ⟨a, b, ha, hb⟩ := h
  constructor
  · rw [ha]; simp
  · rw [hb]; simp

theorem validPtr_hExtends (st st2 : HState) (h : HExtends st st2) (p : Nat)
    (hp : ValidPtr st p) : ValidPtr st2 p ∧ readTS st2 p = readTS st p := by
  obtain ⟨h1, h2⟩ := hp
  have hts := getTS_hExtends st st2 h p h1
  have hlen := tsLen_le_hExtends st st2 h
  constructor
  · exact ⟨Nat.lt_of_lt_of_le h1 hlen.1, by rw [hts]; exact Nat.lt_of_lt_of_le h2 hlen.2⟩
  · unfold readTS
    rw [hts, getSl_hExtends st st2 h _ h2]

theorem tsRefs_cons_some (k : String) (p : Nat) (rest : HCS) :
    tsRefs ((k, some p) :: rest) = p :: tsRefs rest := by
  simp [tsRefs]

theorem tsRefs_cons_none (k : String) (rest : HCS) :
    tsRefs ((k, none) :: rest) = tsRefs rest := by
  simp [tsRefs]

theorem hCloneTS_hExtends (st : HState) (p : Nat) : HExtends st (hCloneTS st p).1 :=
  ⟨[{ baseTmplName := (getTS st p).baseTmplName, fpRef := st.slHeap.length }],
   [getSl st (getTS st p).fpRef], rfl, rfl⟩

theorem hCloneCS_hExtends : ∀ (cs : HCS) (st st2 : HState) (cs2 : HCS),
    hCloneCS st cs = some (st2, cs2) → HExtends st st2 := by
  intro cs
  induction cs with
  | nil =>
    intro st st2 cs2 h
    simp only [hCloneCS, Option.some_inj, Prod.mk.injEq] at h
    rw [← h.1]
    exact hExtends_refl st
  | cons e rest ih =>
    intro st st2 cs2 h
    obtain ⟨k, po⟩ := e
    cases po with
    | none => simp [hCloneCS] at h
    | some p =>
      simp only [hCloneCS] at h
      cases hrec : hCloneCS (hCloneTS st p).1 rest with
      | none => rw [hrec] at h; simp at h
      | some r =>
        obtain ⟨st3, cs3⟩ := r
        rw [hrec] at h
        simp only [Option.some_inj, Prod.mk.injEq] at h
        rw [← h.1]
        exact hExtends_trans st _ st3 (hCloneTS_hExtends st p) (ih _ st3 cs3 hrec)

/-- The struct pointers of a heap clone are fresh (at or above the old
heap top) and their slice pointers are likewise fresh. -/
theorem hCloneCS_fresh : ∀ (cs : HCS) (st st2 : HState) (cs2 : HCS),
    hCloneCS st cs = some (st2, cs2) →
    ∀ q, q ∈ tsRefs cs2 →
      st.tsHeap.length ≤ q ∧ st.slHeap.length ≤ (getTS st2 q).fpRef := by
  intro cs
  induction cs with
  | nil =>
    intro st st2 cs2 h q hq
    simp only [hCloneCS, Option.some_inj, Prod.mk.injEq] at h
    rw [← h.2] at hq
    simp [tsRefs] at hq
  | cons e rest ih =>
    intro st st2 cs2 h q hq
    obtain ⟨k, po⟩ := e
    cases po with
    | none => simp [hCloneCS] at h
    | some p =>
      simp only [hCloneCS] at h
      cases hrec : hCloneCS (hCloneTS st p).1 rest with
      | none => rw [hrec] at h; simp at h
      | some r =>
        obtain ⟨st3, cs3⟩ := r
        rw [hrec] at h
        simp only [Option.some_inj, Prod.mk.injEq] at h
        rw [← h.2, tsRefs_cons_some] at hq
        rw [← h.1]
        have hext2 := hCloneCS_hExtends rest _ st3 cs3 hrec
        rcases List.mem_cons.mp hq with rfl | hq2
        · -- the freshly allocated head pointer
          have hq0 : (hCloneTS st p).2 = st.tsHeap.length := rfl
          rw [hq0]
          have hnew : getTS (hCloneTS st p).1 st.tsHeap.length =
              { baseTmplName := (getTS st p).baseTmplName, fpRef := st.slHeap.length } := by
            unfold hCloneTS getTS
            exact getD_append_at _ _ _ _
          have hv1 : st.tsHeap.length < (hCloneTS st p).1.tsHeap.length := by
            unfold hCloneTS
            simp
          have hts : getTS st3 st.tsHeap.length = getTS (hCloneTS st p).1 st.tsHeap.length :=
            getTS_hExtends _ st3 hext2 _ hv1
          constructor
          · exact Nat.le_refl _
          · rw [hts, hnew]
        · -- a pointer produced by cloning the tail
          have := ih _ st3 cs3 hrec q hq2
          constructor
          · calc st.tsHeap.length ≤ (hCloneTS st p).1.tsHeap.length := by
                  unfold hCloneTS; simp
            _ ≤ q := this.1
          · calc st.slHeap.length ≤ (hCloneTS st p).1.slHeap.length := by
                  unfold hCloneTS; simp
            _ ≤ (getTS st3 q).fpRef := this.2

theorem readCS_cons_some (st : HState) (k : String) (p : Nat) (rest : HCS) :
    readCS st ((k, some p) :: rest) = (k, some (readTS st p)) :: readCS st rest := by
  simp [readCS]

theorem readCS_cons_none (st : HState) (k : String) (rest : HCS) :
    readCS st ((k, none) :: rest) = (k, none) :: readCS st rest := by
  simp [readCS]

theorem readCS_congr : ∀ (cs : HCS) (stA stB : HState),
    (∀ p, (∃ k, (k, some p) ∈ cs) → readTS stA p = readTS stB p) →
    readCS stA cs = readCS stB cs := by
  intro cs
  induction cs with
  | nil => intro stA stB _; rfl
  | cons e rest ih =>
    intro stA stB h
    obtain ⟨k, po⟩ := e
    have htail : readCS stA rest = readCS stB rest := by
      refine ih stA stB (fun p hp => ?_)
      obtain ⟨k2, hk2⟩ := hp
      exact h p ⟨k2, List.mem_cons_of_mem _ hk2⟩
    cases po with
    | none => rw [readCS_cons_none, readCS_cons_none, htail]
    | some p =>
      rw [readCS_cons_some, readCS_cons_some, htail,
        h p ⟨k, List.mem_cons_self _ _⟩]

theorem readCS_hExtends (st st2 : HState) (h : HExtends st st2) (cs : HCS)
    (hv : ValidCS st cs) : readCS st2 cs = readCS st cs :=
  readCS_congr cs st2 st (fun p hp => (validPtr_hExtends st st2 h p (hv p hp)).2)

theorem validCS_tail (st : HState) (e : String × Option Nat) (rest : HCS)
    (h : ValidCS st (e :: rest)) : ValidCS st rest :=
  fun p hp => by
    obtain ⟨k, hk⟩ := hp
    exact h p ⟨k, List.mem_cons_of_mem e hk⟩

theorem readTS_hCloneTS (st : HState) (p : Nat) :
    readTS (hCloneTS st p).1 (hCloneTS st p).2 = readTS st p := by
  have h1 : getTS (hCloneTS st p).1 (hCloneTS st p).2 =
      { baseTmplName := (getTS st p).baseTmplName, fpRef := st.slHeap.length } := by
    unfold hCloneTS getTS
    exact getD_append_at _ _ _ _
  have h2 : getSl (hCloneTS st p).1 st.slHeap.length = getSl st (getTS st p).fpRef := by
    unfold hCloneTS getSl
    exact getD_append_at _ _ _ _
  unfold readTS
  rw [h1, h2]

theorem validPtr_hCloneTS (st : HState) (p : Nat) :
    ValidPtr (hCloneTS st p).1 (hCloneTS st p).2 := by
  have h1 : getTS (hCloneTS st p).1 (hCloneTS st p).2 =
      { baseTmplName := (getTS st p).baseTmplName, fpRef := st.slHeap.length } := by
    unfold hCloneTS getTS
    exact getD_append_at _ _ _ _
  constructor
  · show st.tsHeap.length < (hCloneTS st p).1.tsHeap.length
    unfold hCloneTS
    simp
  · rw [h1]
    show st.slHeap.length < (hCloneTS st p).1.slHeap.length
    unfold hCloneTS
    simp

/-- The deep copy denotes the same value as the original. -/
theorem hCloneCS_read : ∀ (cs : HCS) (st st2 : HState) (cs2 : HCS),
    ValidCS st cs → hCloneCS st cs = some (st2, cs2) → readCS st2 cs2 = readCS st cs := by
  intro cs
  induction cs with
  | nil =>
    intro st st2 cs2 _ h
    simp only [hCloneCS, Option.some_inj, Prod.mk.injEq] at h
    rw [← h.1, ← h.2]
  | cons e rest ih =>
    intro st st2 cs2 hv h
    obtain ⟨k, po⟩ := e
    cases po with
    | none => simp [hCloneCS] at h
    | some p =>
      simp only [hCloneCS] at h
      cases hrec : hCloneCS (hCloneTS st p).1 rest with
      | none => rw [hrec] at h; simp at h
      | some r =>
        obtain ⟨st3, cs3⟩ := r
        rw [hrec] at h
        simp only [Option.some_inj, Prod.mk.injEq] at h
        obtain ⟨hst, hcs⟩ := h
        subst hst
        subst hcs
        rw [readCS_cons_some, readCS_cons_some]
        have hext2 := hCloneCS_hExtends rest _ st3 cs3 hrec
        have hvrest : ValidCS (hCloneTS st p).1 rest :=
          fun q hq => (validPtr_hExtends st _ (hCloneTS_hExtends st p) q
            (validCS_tail st _ rest hv q hq)).1
        have hhead : readTS st3 (hCloneTS st p).2 = readTS st p := by
          rw [(validPtr_hExtends _ st3 hext2 _ (validPtr_hCloneTS st p)).2]
          exact readTS_hCloneTS st p
        have htail : readCS st3 cs3 = readCS st rest := by
          rw [ih _ st3 cs3 hvrest hrec]
          exact readCS_hExtends _ _ (hCloneTS_hExtends st p) rest (validCS_tail st _ rest hv)
        rw [hhead, htail]

theorem readTS_setTS (st : HState) (q : Nat) (v : HTS) (p : Nat) (hne : q ≠ p) :
    readTS (applyMut st (.setTS q v)) p = readTS st p := by
  have h1 : getTS (applyMut st (.setTS q v)) p = getTS st p := by
    unfold applyMut getTS
    exact getD_set_ne _ _ _ _ _ hne
  unfold readTS
  rw [h1]
  rfl

theorem readTS_setSl (st : HState) (q : Nat) (v : List String) (p : Nat)
    (hne : q ≠ (getTS st p).fpRef) :
    readTS (applyMut st (.setSl q v)) p = readTS st p := by
  have h1 : getTS (applyMut st (.setSl q v)) p = getTS st p := rfl
  unfold readTS
  rw [h1]
  unfold applyMut getSl
  rw [getD_set_ne _ _ _ _ _ hne]

theorem mem_tsRefs (cs : HCS) (q : Nat) : q ∈ tsRefs cs ↔ ∃ k, (k, some q) ∈ cs := by
  unfold tsRefs
  rw [List.mem_filterMap]
  constructor
  · rintro ⟨⟨k, po⟩, hmem, hsnd⟩
    have hpo : po = some q := hsnd
    subst hpo
    exact ⟨k, hmem⟩
  · rintro ⟨k, hmem⟩
    exact ⟨(k, some q), hmem, rfl⟩

/-! Lifecycle helper lemmas. -/

theorem lifeStep_used (s : LifeState) (op : LifeOp) (h : s.onceUsed = true) :
    lifeStep s op = some s := by
  cases op <;> simp [lifeStep, h]

theorem runOps_used (ops : List LifeOp) (s : LifeState) (h : s.onceUsed = true) :
    runOps s ops = some s := by
  induction ops with
  | nil => rfl
  | cons op rest ih => simp [runOps, lifeStep_used s op h, ih]

/-! ## Claim theorems -/

/-- C1: the claim states that when the recursive parent request
succeeds but parsing the template's file paths onto the parent
artifact fails, the entry reaches terminal failure with the wrapped
parse error as its terminal-error, reaching every requester.
Evaluating `parse` at such an input shows the source instead assigns
the parse-onto error to a variable shadowed inside the composite
branch: the entry fires ready with a nil terminal-error and a nil
artifact, and a deliverer for it then panics calling `Clone` on the
nil cached template. -/
theorem c1_parse_onto_error_lost :
    parse false envParentOkParseFail "child" false GoErr.canceled entryChild =
      ({ schematic := some { baseTmplName := "base", filepaths := ["child.gohtml"] },
         tmpl := none, err := none }, SignalOutcome.readyFired) ∧
    deliverReady cloneOk
      (parse false envParentOkParseFail "child" false GoErr.canceled entryChild).1 = none := by
  exact ⟨rfl, rfl⟩

/-- C3: the claim states that when cloning the cached artifact of a
ready successful entry fails, the clone error itself is sent to the
requester.  Evaluating `deliver`'s ready branch shows the source sends
`ce.err` — nil for a successful entry — so the requester's `Get`
returns a nil template with a nil error instead of the clone error;
the entry itself is not mutated and still serves later requesters
whose clone succeeds. -/
theorem c3_clone_error_not_sent :
    deliverReady cloneFail entryParsed = some { tmpl := none, err := none } ∧
    decide (deliverReady cloneFail entryParsed =
      some { tmpl := none, err := some cloneFailErr }) = false ∧
    getOutcome "page" 1 2 GoErr.canceled
      (GetEvent.resultDelivered { tmpl := none, err := none }) = Except.ok none ∧
    deliverReady cloneOk entryParsed = some { tmpl := some { id := 7 }, err := none } := by
  exact ⟨rfl, by decide, rfl, rfl⟩

/-- C4 counterexample: a `Get` whose cancellation handle fires while
awaiting the result returns the bare `ctx.Err()` — `context.Canceled`
here — which is not a `RequestError` carrying the template name, so
the claim that both preemption points return a decorated error is
false. -/
theorem c4_await_returns_bare_error :
    getOutcome "withBody1" 5 9 GoErr.canceled GetEvent.ctxFiresAtAwait =
      Except.error GoErr.canceled ∧
    isDecoratedWith GoErr.canceled "withBody1" = false := by
  exact ⟨rfl, rfl⟩

/-- C4 amended: only the submit-phase preemption decorates the error
with the request context (name and elapsed time); a cancellation while
awaiting the result returns the handle's error undecorated. -/
theorem c4_decoration_on_submit_only :
    ∀ (name : String) (eS eA : Nat) (ctxErr : GoErr),
    getOutcome name eS eA ctxErr GetEvent.ctxFiresAtSubmit =
      Except.error (GoErr.requestError (GoErr.withStack ctxErr) name eS) ∧
    isDecoratedWith (GoErr.requestError (GoErr.withStack ctxErr) name eS) name = true ∧
    getOutcome name eS eA ctxErr GetEvent.ctxFiresAtAwait = Except.error ctxErr := by
  intro name eS eA ctxErr
  refine ⟨rfl, ?_, rfl⟩
  simp [isDecoratedWith]

/-- C5: the claim states a Get of a name without a descriptor caches
`SchematicNotFound` as the entry's terminal error.  The work loop does
allocate an entry with a nil snapshot, the parser does fire ready with
a cached error, the next request for the name spawns no parser and is
served the identical cached error — but that error is a fresh
`errors.New` of the `missing schematic` log message; the declared
`ErrSchematicNotFound` sentinel (whose doc comment reserves it for
exactly this case) is never used. -/
theorem c5_missing_schematic_error :
    loopStep schBaseOnly [] "missing" false =
      ([("missing", entryMissing)], some entryMissing, true) ∧
    parse false envUnused "missing" false GoErr.canceled entryMissing =
      (entryMissingDone, SignalOutcome.readyFired) ∧
    entryMissingDone.err =
      some (GoErr.errorsNew "missing schematic for template \"missing\"") ∧
    decide (entryMissingDone.err = some errSchematicNotFound) = false ∧
    loopStep schBaseOnly [("missing", entryMissingDone)] "missing" false =
      ([("missing", entryMissingDone)], some entryMissingDone, false) ∧
    deliverReady cloneOk entryMissingDone =
      some { tmpl := none,
             err := some (GoErr.errorsNew "missing schematic for template \"missing\"") } := by
  refine ⟨by decide, rfl, by decide, by decide, by decide, by decide⟩

/-- C6: `IsCyclic` reports a cycle exactly when `New` fails with the
wrapped cyclic-graph error; the failure outcome carries no cache and
no started work loop (`New` returns a nil `*Doppel` before cloning the
schematic or starting anything). -/
theorem c6_new_fails_iff_cyclic : ∀ cs : CacheSchematic,
    IsCyclic cs = true ↔ NewModel cs = NewOutcome.failure (GoErr.withStack cyclicErr) := by
  intro cs
  by_cases h : IsCyclic cs = true
  · simp [NewModel, h]
  · have h2 : NewModel cs ≠ NewOutcome.failure (GoErr.withStack cyclicErr) := by
      unfold NewModel
      rw [if_neg h]
      cases CacheSchematic.Clone cs <;> simp
    simp [h, h2]

/-- C10: a `CacheSchematic` mapping some key to a nil
`*TemplateSchematic` makes `Clone` dereference nil and panic, and
therefore makes `New` panic whenever the acyclicity check accepts the
schematic (a cyclic schematic is rejected before the clone runs). -/
theorem c10_nil_entry_clone_panics : ∀ (cs : CacheSchematic) (k : String),
    (k, (none : Option TemplateSchematic)) ∈ cs →
    CacheSchematic.Clone cs = none ∧
    (IsCyclic cs = false → NewModel cs = NewOutcome.panics) := by
  intro cs k hmem
  have hclone : CacheSchematic.Clone cs = none := by
    induction cs with
    | nil => simp at hmem
    | cons e rest ih =>
      rcases List.mem_cons.mp hmem with h1 | h2
      · subst h1
        rfl
      · obtain ⟨k2, v2⟩ := e
        cases v2 with
        | none => rfl
        | some ts => simp [CacheSchematic.Clone, ih h2]
  refine ⟨hclone, fun hcyc => ?_⟩
  unfold NewModel
  simp [hcyc, hclone]

/-- C2 counterexample: a cancellation surfaced by the recursive parent
Get as its submit-path `RequestError` decoration is not identically
`context.Canceled`, so `signalStatus` closes ready and the decorated
cancellation error is cached as a terminal failure: this parse abort
caused by cancellation of the originating request does not emit the
retry signal, refuting the claim's "always". -/
theorem c2_wrapped_cancel_cached :
    getOutcome "base" 3 0 GoErr.canceled GetEvent.ctxFiresAtSubmit =
      Except.error submitCancelErr ∧
    (parse false envSubmitCancel "child" false GoErr.canceled entryChild).2 =
      SignalOutcome.readyFired ∧
    (parse false envSubmitCancel "child" false GoErr.canceled entryChild).1.err =
      some submitCancelErr := by
  exact ⟨rfl, rfl, rfl⟩

/-- C2 amended: a parse aborted by cancellation observed directly on
the originating request's handle, or observed as the bare
`context.Canceled` error returned by the recursive parent Get's await
path, emits the retry signal (ready stays unfired) with the context
error recorded; the recorded error is discarded when the next parse
run passes its cancellation check; a deadline-exceeded abort is
retryable exactly when the retry-timeouts option is set and otherwise
is a terminal failure caching `context.DeadlineExceeded`; but a
cancellation surfaced by the recursive Get wrapped in a `RequestError`
fires ready and is cached as a terminal failure. -/
theorem c2_cancellation_retry_classification :
    ∀ (rt : Bool) (env : ParseEnv) (name : String) (ce : CacheEntry) (e : GoErr),
    (parse rt env name true GoErr.canceled ce).2 = SignalOutcome.retryEmitted ∧
    (parse rt env name true GoErr.canceled ce).1.err = some GoErr.canceled ∧
    (parse rt env name true GoErr.deadlineExceeded ce).2 =
      (if rt then SignalOutcome.retryEmitted else SignalOutcome.readyFired) ∧
    (parse rt env name true GoErr.deadlineExceeded ce).1.err =
      some GoErr.deadlineExceeded ∧
    (parse rt env name false e { ce with err := some e }).1 =
      (parse rt env name false e { ce with err := none }).1 ∧
    (∀ s, ce.schematic = some s → s.baseTmplName ≠ "" →
      (env.recGet s.baseTmplName = Except.error GoErr.canceled →
        (parse rt env name false e ce).2 = SignalOutcome.retryEmitted) ∧
      (∀ inner tgt el,
        env.recGet s.baseTmplName = Except.error (GoErr.requestError inner tgt el) →
        (parse rt env name false e ce).2 = SignalOutcome.readyFired ∧
        (parse rt env name false e ce).1.err =
          some (GoErr.requestError inner tgt el))) := by
  intro rt env name ce e
  refine ⟨rfl, rfl, ?_, rfl, rfl, ?_⟩
  · cases rt <;> rfl
  · intro s hs hb
    constructor
    · intro hrec
      simp [parse, parseBody, hs, hb, hrec, signalStatus]
    · intro inner tgt el hrec
      constructor
      · simp [parse, parseBody, hs, hb, hrec, signalStatus]
      · simp [parse, parseBody, hs, hb, hrec]

/-- C2 witness: with the retry-timeouts option unset, a direct
cancellation abort and one observed as the bare `context.Canceled`
from the recursive Get both emit the retry signal. -/
theorem c2_cancellation_retry_classification_witness :
    (parse false envAwaitCancel "child" true GoErr.canceled entryChild).2 =
      SignalOutcome.retryEmitted ∧
    (parse false envAwaitCancel "child" false GoErr.canceled entryChild).2 =
      SignalOutcome.retryEmitted :=
  ⟨(c2_cancellation_retry_classification false envAwaitCancel "child" entryChild
      GoErr.canceled).1,
   ((c2_cancellation_retry_classification false envAwaitCancel "child" entryChild
      GoErr.canceled).2.2.2.2.2 { baseTmplName := "base", filepaths := ["child.gohtml"] }
      rfl (by decide)).1 rfl⟩

/-- C9: any sequence of Shutdown and Close calls performs the
shutdown-signal closure and the request-stream closure at most once
each: every invocation after the first effective one is a no-op on the
state, no call panics (no channel is closed twice), and every
non-empty call sequence — once the armed grace timer, if any, has
fired — leaves the cache in the one terminal state, each channel
closed exactly once. -/
theorem c9_shutdown_idempotent :
    (∀ (s : LifeState) (op : LifeOp), s.onceUsed = true → lifeStep s op = some s) ∧
    (∀ ops : List LifeOp, ops ≠ [] → runLifecycle ops = some terminalLife) := by
  refine ⟨lifeStep_used, ?_⟩
  intro ops hne
  cases ops with
  | nil => exact absurd rfl hne
  | cons op rest =>
    cases op with
    | shutdown =>
      have h1 : lifeStep initLife LifeOp.shutdown = some afterShutdown := rfl
      have hrun : runOps initLife (LifeOp.shutdown :: rest) = some afterShutdown := by
        show (lifeStep initLife LifeOp.shutdown).bind (fun s2 => runOps s2 rest) =
          some afterShutdown
        rw [h1]
        exact runOps_used rest afterShutdown rfl
      show (runOps initLife (LifeOp.shutdown :: rest)).bind fireGraceTimer =
        some terminalLife
      rw [hrun]
      rfl
    | closeCall =>
      have h1 : lifeStep initLife LifeOp.closeCall = some terminalLife := rfl
      have hrun : runOps initLife (LifeOp.closeCall :: rest) = some terminalLife := by
        show (lifeStep initLife LifeOp.closeCall).bind (fun s2 => runOps s2 rest) =
          some terminalLife
        rw [h1]
        exact runOps_used rest terminalLife rfl
      show (runOps initLife (LifeOp.closeCall :: rest)).bind fireGraceTimer =
        some terminalLife
      rw [hrun]
      rfl

/-- C9 witness: a Close on an already shut-down cache is a no-op, and
the sequence Close-then-Shutdown reaches the terminal state. -/
theorem c9_shutdown_idempotent_witness :
    lifeStep terminalLife LifeOp.closeCall = some terminalLife ∧
    runLifecycle [LifeOp.closeCall, LifeOp.shutdown] = some terminalLife :=
  ⟨c9_shutdown_idempotent.1 terminalLife LifeOp.closeCall rfl,
   c9_shutdown_idempotent.2 [LifeOp.closeCall, LifeOp.shutdown] (by decide)⟩

/-- C10 witness: a concrete schematic with a nil entry. -/
theorem c10_nil_entry_clone_panics_witness :
    (("a", (none : Option TemplateSchematic)) ∈ csNilEntry) ∧
    CacheSchematic.Clone csNilEntry = none ∧
    NewModel csNilEntry = NewOutcome.panics := by
  have h := c10_nil_entry_clone_panics csNilEntry "a" (by simp [csNilEntry])
  exact ⟨by simp [csNilEntry], h.1, h.2 (by decide)⟩

/-- C7 counterexample: the schematic whose single descriptor is stored
under the empty-string key and has an empty parent name.  The claimed
relation (an empty parent name contributes no edge) has no cycle, yet
`IsCyclic` follows the empty parent name back to the empty-string key
and reports one. -/
theorem c7_empty_key_false_cycle :
    IsCyclic csEmptyKey = true ∧ ¬ HasSpecCycle csEmptyKey := by
  constructor
  · decide
  · rintro ⟨n, k, hk, hit⟩
    have hsp : ∀ x, specParent csEmptyKey x = none := by
      intro x
      by_cases hx : x = ""
      · subst hx
        decide
      · have hbeq : (x == "") = false := by simp [hx]
        unfold specParent lookupTS csEmptyKey
        simp [List.lookup, hbeq]
    cases k with
    | zero => omega
    | succ k =>
      rw [show specIter csEmptyKey (k + 1) n =
        (specParent csEmptyKey n).bind (specIter csEmptyKey k) from rfl, hsp n] at hit
      simp at hit

/-- C7 amended: provided the schematic stores no descriptor under the
empty-string key, `IsCyclic` — with its keys enumerated in any order
covering them, hence regardless of start node — reports a cycle
exactly when the parent relation restricted to resolvable edges
contains one; in particular an empty parent name contributes no edge
and a parent name that is not a key never yields a cycle error.  The
counterexample shows the proviso is necessary. -/
theorem c7_iscyclic_iff_spec_cycle :
    ∀ (cs : CacheSchematic) (order : List String),
    lookupTS cs "" = none → (∀ k, k ∈ keysOf cs → k ∈ order) →
    ((isCyclicAux cs order [] = true ↔ HasSpecCycle cs) ∧
     (IsCyclic cs = true ↔ HasSpecCycle cs)) := by
  intro cs order hempty horder
  have main : ∀ ord : List String, (∀ k, k ∈ keysOf cs → k ∈ ord) →
      (isCyclicAux cs ord [] = true ↔ HasSpecCycle cs) := by
    intro ord hord
    constructor
    · intro h
      exact (cycle_bridge cs hempty).mp (aux_sound cs ord [] h)
    · intro h
      obtain ⟨c, hc⟩ := (cycle_bridge cs hempty).mpr h
      exact aux_complete cs ord [] (by simp) ⟨c, hc, hord c (oncycle_mem_keys cs c hc)⟩
  exact ⟨main order horder, main (keysOf cs) (fun k hk => hk)⟩

/-- C7 witness: the two-node cycle A → B → A is reported. -/
theorem c7_iscyclic_iff_spec_cycle_witness :
    lookupTS csTwoCycle "" = none ∧
    (IsCyclic csTwoCycle = true ↔ HasSpecCycle csTwoCycle) :=
  ⟨by decide,
   (c7_iscyclic_iff_spec_cycle csTwoCycle (keysOf csTwoCycle) (by decide)
     (fun k hk => hk)).2⟩

/-- C8: cloning a schematic denotes the same deep value through
entirely fresh allocations: a mutation through any pointer of the
clone leaves the value denoted by the original unchanged; and since
`New` stores such a deep copy once the acyclicity check accepts the
schematic, a mutation through any of the caller's pointers after `New`
returns leaves the value denoted by the stored schematic — which
determines all subsequent cache behavior — unchanged. -/
theorem c8_clone_roundtrip :
    ∀ (st : HState) (cs : HCS) (st2 : HState) (cs2 : HCS), ValidCS st cs →
    (hCloneCS st cs = some (st2, cs2) →
      readCS st2 cs2 = readCS st cs ∧
      (∀ m, MutTargets st2 cs2 m → readCS (applyMut st2 m) cs = readCS st2 cs)) ∧
    (hNew st cs = HNewOut.success st2 cs2 →
      ∀ m, MutTargets st cs m → readCS (applyMut st2 m) cs2 = readCS st2 cs2) := by
  intro st cs st2 cs2 hv
  constructor
  · intro hclone
    refine ⟨hCloneCS_read cs st st2 cs2 hv hclone, ?_⟩
    intro m hm
    cases m with
    | setTS q v =>
      refine readCS_congr cs _ _ (fun p hp => ?_)
      have hvp : ValidPtr st p := hv p hp
      have hfresh := hCloneCS_fresh cs st st2 cs2 hclone q hm
      refine readTS_setTS st2 q v p ?_
      have h1 := hvp.1
      have h2 := hfresh.1
      omega
    | setSl q v =>
      obtain ⟨q0, hq0, hq⟩ := List.mem_map.mp hm
      have hfresh := hCloneCS_fresh cs st st2 cs2 hclone q0 hq0
      refine readCS_congr cs _ _ (fun p hp => ?_)
      have hvp : ValidPtr st p := hv p hp
      have hts : getTS st2 p = getTS st p :=
        getTS_hExtends st st2 (hCloneCS_hExtends cs st st2 cs2 hclone) p hvp.1
      refine readTS_setSl st2 q v p ?_
      rw [hts]
      have h1 : (getTS st p).fpRef < st.slHeap.length := hvp.2
      have h2 : st.slHeap.length ≤ q := by
        rw [← hq]
        exact hfresh.2
      omega
  · intro hnew m hm
    have hclone : hCloneCS st cs = some (st2, cs2) := by
      unfold hNew at hnew
      by_cases hc : IsCyclic (readCS st cs)
      · rw [if_pos hc] at hnew
        exact absurd hnew (by simp)
      · rw [if_neg hc] at hnew
        cases hcl : hCloneCS st cs with
        | none =>
          rw [hcl] at hnew
          exact absurd hnew (by simp)
        | some r =>
          obtain ⟨a, b⟩ := r
          rw [hcl] at hnew
          simp only [HNewOut.success.injEq] at hnew
          rw [← hnew.1, ← hnew.2]
    cases m with
    | setTS q v =>
      obtain ⟨k0, hk0⟩ := (mem_tsRefs cs q).mp hm
      have hvq : ValidPtr st q := hv q ⟨k0, hk0⟩
      refine readCS_congr cs2 _ _ (fun p hp => ?_)
      have hpfresh := hCloneCS_fresh cs st st2 cs2 hclone p ((mem_tsRefs cs2 p).mpr hp)
      refine readTS_setTS st2 q v p ?_
      have h1 := hvq.1
      have h2 := hpfresh.1
      omega
    | setSl q v =>
      obtain ⟨q0, hq0, hq⟩ := List.mem_map.mp hm
      obtain ⟨k0, hk0⟩ := (mem_tsRefs cs q0).mp hq0
      have hvq0 : ValidPtr st q0 := hv q0 ⟨k0, hk0⟩
      have hqlt : q < st.slHeap.length := by
        rw [← hq]
        exact hvq0.2
      refine readCS_congr cs2 _ _ (fun p hp => ?_)
      have hpfresh := hCloneCS_fresh cs st st2 cs2 hclone p ((mem_tsRefs cs2 p).mpr hp)
      refine readTS_setSl st2 q v p ?_
      have h2 := hpfresh.2
      omega

/-- C8 witness: a one-descriptor schematic; mutating the clone's slice
leaves the original's value unchanged, and mutating the caller's slice
after `New` leaves the stored clone's value unchanged. -/
theorem c8_clone_roundtrip_witness :
    readCS stHeapW2 csHeapW2 = readCS stHeapW csHeapW ∧
    readCS (applyMut stHeapW2 (HMut.setSl 1 ["mutated.gohtml"])) csHeapW =
      readCS stHeapW2 csHeapW ∧
    readCS (applyMut stHeapW2 (HMut.setSl 0 ["mutated.gohtml"])) csHeapW2 =
      readCS stHeapW2 csHeapW2 := by
  have hv : ValidCS stHeapW csHeapW := by
    intro p hp
    obtain ⟨k, hk⟩ := hp
    simp [csHeapW] at hk
    rw [hk.2]
    exact ⟨by decide, by decide⟩
  have hc : hCloneCS stHeapW csHeapW = some (stHeapW2, csHeapW2) := by decide
  have hnew : hNew stHeapW csHeapW = HNewOut.success stHeapW2 csHeapW2 := by decide
  have hA := (c8_clone_roundtrip stHeapW csHeapW stHeapW2 csHeapW2 hv).1 hc
  have hB := (c8_clone_roundtrip stHeapW csHeapW stHeapW2 csHeapW2 hv).2 hnew
    (HMut.setSl 0 ["mutated.gohtml"])
    (by show (0 : Nat) ∈ slRefs stHeapW csHeapW; decide)
  exact ⟨hA.1,
    hA.2 (HMut.setSl 1 ["mutated.gohtml"])
      (by show (1 : Nat) ∈ slRefs stHeapW2 csHeapW2; decide),
    hB⟩

end Doppel
